import Mathlib

/-!
Shallow embedding of the CML parameter-estimation core
(src/ui/optimizer_core.py and src/ui/projection_scenarios.py) and proofs of
the specification claims about it.

Conventions of the embedding:
* Python floats are modelled as real numbers (`ℝ`); exact decimal literals
  that are compared for equality (months, doses, clinical values) are
  modelled as rationals (`ℚ`) so the comparisons stay decidable.
* Randomness (`random.uniform`, `random.gauss`, tournament draws, mutation
  coin flips) is modelled by explicit oracle arguments: the function takes
  the drawn values as inputs, and the theorems quantify over them.
* The ODE integrator `scipy.integrate.odeint` is not embedded; the fitness
  functions take the solver output (the trajectory) as an explicit argument,
  and possibly non-finite entries are modelled by the type `FloatV`.
-/

namespace CML

noncomputable section

/-- The seven optimised genes, the keys of GENE_BOUNDS in optimizer_core.py.
The source name of the first gene is initLRATIO. -/
inductive Gene where
  | initLR
  | TKI_effect
  | p_XY
  | p_YX
  | p_Y
  | K_Z
  | p_Z
deriving DecidableEq

/-- A parameter vector (an individual of the genetic algorithm): one real
value per gene. The Python dict with the seven gene keys is modelled as a
total function on `Gene`. -/
def Params := Gene → ℝ

instance : Inhabited Params := ⟨fun _ => 0⟩

/-- The genes treated in log10 scale by creation, crossover and mutation
(the list p_XY, p_YX, K_Z, p_Z in the source). -/
def isLog : Gene → Bool
  | .p_XY => true
  | .p_YX => true
  | .K_Z => true
  | .p_Z => true
  | _ => false

/-- GENE_BOUNDS: the (lower, upper) search bound of each gene. -/
def geneBounds : Gene → ℝ × ℝ
  | .initLR => (-2, 0)
  | .TKI_effect => (0.5, 3)
  | .p_XY => (1e-10, 1)
  | .p_YX => (1e-10, 1)
  | .p_Y => (0.05, 10)
  | .K_Z => (10, (10 : ℝ) ^ (3.5 : ℝ))
  | .p_Z => (20, 12649111)

/-- np.clip x lo hi: entries below lo become lo, entries above hi become hi;
numpy computes np.minimum(hi, np.maximum(x, lo)). -/
def npclip (x lo hi : ℝ) : ℝ := min hi (max x lo)

/-- Every gene value lies inside its declared GENE_BOUNDS interval,
inclusive at both endpoints. -/
def inBounds (p : Params) : Prop :=
  ∀ g, (geneBounds g).1 ≤ p g ∧ p g ≤ (geneBounds g).2

/-- The interval each random draw of create_initial_population comes from:
log-scale genes draw uniformly in [log10 lower, log10 upper] (the value is
then 10 ** draw), initLRATIO in [-2, 0], TKI_effect in [0.8, 2.5] and p_Y in
[0.5, 5.0]. -/
def drawRange : Gene → ℝ × ℝ
  | .initLR => (-2, 0)
  | .TKI_effect => (0.8, 2.5)
  | .p_XY => (Real.logb 10 1e-10, Real.logb 10 1)
  | .p_YX => (Real.logb 10 1e-10, Real.logb 10 1)
  | .p_Y => (0.5, 5)
  | .K_Z => (Real.logb 10 10, Real.logb 10 ((10 : ℝ) ^ (3.5 : ℝ)))
  | .p_Z => (Real.logb 10 20, Real.logb 10 12649111)

/-- One individual of create_initial_population, with the seven uniform
draws supplied by the oracle `r`: a log-scale gene becomes 10 ** r g, the
remaining genes take the drawn value directly. -/
def createIndividual (r : Gene → ℝ) : Params := fun g =>
  if isLog g then (10 : ℝ) ^ r g else r g

/-- create_initial_population size: a list of `size` individuals built from
the per-individual draw oracle. -/
def create_initial_population (size : ℕ) (r : ℕ → Gene → ℝ) : List Params :=
  (List.range size).map fun i => createIndividual (r i)

/-- One gene of the first crossover child: log-scale genes blend the log10
values with coefficient a and clip to the log-space bounds before
exponentiating; the other genes blend linearly and clip to the bounds. -/
def crossoverGene (g : Gene) (x y a : ℝ) : ℝ :=
  if isLog g then
    (10 : ℝ) ^ npclip (a * Real.logb 10 x + (1 - a) * Real.logb 10 y)
      (Real.logb 10 (geneBounds g).1) (Real.logb 10 (geneBounds g).2)
  else
    npclip (a * x + (1 - a) * y) (geneBounds g).1 (geneBounds g).2

/-- crossover parent1 parent2: produces the two children; per gene one
mixing coefficient alpha g is drawn and the second child uses the
complementary blend (the source computes alpha*l2 + (1-alpha)*l1). -/
def crossover (p1 p2 : Params) (alpha : Gene → ℝ) : Params × Params :=
  (fun g => crossoverGene g (p1 g) (p2 g) (alpha g),
   fun g => crossoverGene g (p2 g) (p1 g) (alpha g))

/-- mutate individual: each gene mutates when its coin flip (r g).1 fires;
log-scale genes add the gaussian draw in log10 space and clip to the
log-space bounds before exponentiating, all other genes add the gaussian
draw directly and clip to the bounds (per-gene sigma of the gaussian is
absorbed into the oracle draw (r g).2). -/
def mutate (p : Params) (r : Gene → Bool × ℝ) : Params := fun g =>
  if (r g).1 then
    if isLog g then
      (10 : ℝ) ^ npclip (Real.logb 10 (p g) + (r g).2)
        (Real.logb 10 (geneBounds g).1) (Real.logb 10 (geneBounds g).2)
    else
      npclip (p g + (r g).2) (geneBounds g).1 (geneBounds g).2
  else p g

lemma npclip_mem {lo hi : ℝ} (x : ℝ) (h : lo ≤ hi) :
    lo ≤ npclip x lo hi ∧ npclip x lo hi ≤ hi := by
  refine ⟨le_min h (le_max_right x lo), min_le_left hi _⟩

lemma one_lt_ten : (1 : ℝ) < 10 := by norm_num

lemma rpow_mem_of_logb_mem {lo hi z : ℝ} (hlo : 0 < lo) (hhi : 0 < hi)
    (h1 : Real.logb 10 lo ≤ z) (h2 : z ≤ Real.logb 10 hi) :
    lo ≤ (10 : ℝ) ^ z ∧ (10 : ℝ) ^ z ≤ hi := by
  constructor
  · calc lo = (10 : ℝ) ^ Real.logb 10 lo :=
        (Real.rpow_logb (by norm_num) (by norm_num) hlo).symm
    _ ≤ (10 : ℝ) ^ z := (Real.rpow_le_rpow_left_iff one_lt_ten).mpr h1
  · calc (10 : ℝ) ^ z ≤ (10 : ℝ) ^ Real.logb 10 hi :=
        (Real.rpow_le_rpow_left_iff one_lt_ten).mpr h2
    _ = hi := Real.rpow_logb (by norm_num) (by norm_num) hhi

lemma ten_rpow_35_pos : (0 : ℝ) < (10 : ℝ) ^ (3.5 : ℝ) :=
  Real.rpow_pos_of_pos (by norm_num) _

lemma ten_le_ten_rpow_35 : (10 : ℝ) ≤ (10 : ℝ) ^ (3.5 : ℝ) := by
  calc (10 : ℝ) = (10 : ℝ) ^ (1 : ℝ) := (Real.rpow_one 10).symm
  _ ≤ (10 : ℝ) ^ (3.5 : ℝ) :=
      (Real.rpow_le_rpow_left_iff one_lt_ten).mpr (by norm_num)

lemma geneBounds_lower_le_upper (g : Gene) :
    (geneBounds g).1 ≤ (geneBounds g).2 := by
  cases g
  case K_Z => simp only [geneBounds]; exact ten_le_ten_rpow_35
  all_goals norm_num [geneBounds]

lemma geneBounds_pos_of_isLog (g : Gene) (h : isLog g = true) :
    0 < (geneBounds g).1 ∧ 0 < (geneBounds g).2 := by
  cases g
  case K_Z =>
    simp only [geneBounds]
    exact ⟨by norm_num, ten_rpow_35_pos⟩
  all_goals simp [isLog] at h <;> simp [geneBounds] <;> norm_num

lemma crossoverGene_mem (g : Gene) (x y a : ℝ) :
    (geneBounds g).1 ≤ crossoverGene g x y a ∧
      crossoverGene g x y a ≤ (geneBounds g).2 := by
  unfold crossoverGene
  by_cases h : isLog g
  · rw [if_pos h]
    obtain ⟨hl, hu⟩ := geneBounds_pos_of_isLog g h
    have hlb : Real.logb 10 (geneBounds g).1 ≤ Real.logb 10 (geneBounds g).2 :=
      Real.logb_le_logb_of_le one_lt_ten hl (geneBounds_lower_le_upper g)
    exact rpow_mem_of_logb_mem hl hu (npclip_mem _ hlb).1 (npclip_mem _ hlb).2
  · rw [if_neg h]
    exact npclip_mem _ (geneBounds_lower_le_upper g)

lemma mutate_mem (p : Params) (r : Gene → Bool × ℝ) (hp : inBounds p) (g : Gene) :
    (geneBounds g).1 ≤ mutate p r g ∧ mutate p r g ≤ (geneBounds g).2 := by
  unfold mutate
  by_cases hc : (r g).1
  · rw [if_pos hc]
    by_cases h : isLog g
    · rw [if_pos h]
      obtain ⟨hl, hu⟩ := geneBounds_pos_of_isLog g h
      have hlb : Real.logb 10 (geneBounds g).1 ≤ Real.logb 10 (geneBounds g).2 :=
        Real.logb_le_logb_of_le one_lt_ten hl (geneBounds_lower_le_upper g)
      exact rpow_mem_of_logb_mem hl hu (npclip_mem _ hlb).1 (npclip_mem _ hlb).2
    · rw [if_neg h]
      exact npclip_mem _ (geneBounds_lower_le_upper g)
  · rw [if_neg hc]
    exact hp g

lemma logb_ten_1em10 : Real.logb 10 (1e-10 : ℝ) = -10 := by
  have h : (1e-10 : ℝ) = (10 : ℝ) ^ (-10 : ℝ) := by
    rw [show ((-10 : ℝ) = ((-10 : ℤ) : ℝ)) by norm_num, Real.rpow_intCast]
    norm_num
  rw [h, Real.logb_rpow (by norm_num) (by norm_num)]

lemma createIndividual_mem (r : Gene → ℝ)
    (hr : ∀ g, (drawRange g).1 ≤ r g ∧ r g ≤ (drawRange g).2) (g : Gene) :
    (geneBounds g).1 ≤ createIndividual r g ∧
      createIndividual r g ≤ (geneBounds g).2 := by
  obtain ⟨hr1, hr2⟩ := hr g
  cases g
  case initLR =>
    simp only [createIndividual, isLog, if_neg, Bool.false_eq_true,
      not_false_iff, geneBounds]
    simp [drawRange] at hr1 hr2
    exact ⟨hr1, hr2⟩
  case TKI_effect =>
    simp only [createIndividual, isLog, Bool.false_eq_true, if_false, geneBounds]
    simp [drawRange] at hr1 hr2
    constructor <;> linarith
  case p_Y =>
    simp only [createIndividual, isLog, Bool.false_eq_true, if_false, geneBounds]
    simp [drawRange] at hr1 hr2
    constructor <;> linarith
  case p_XY =>
    simp only [createIndividual, isLog, if_true, geneBounds]
    simp only [drawRange] at hr1 hr2
    exact rpow_mem_of_logb_mem (by norm_num) (by norm_num) hr1 hr2
  case p_YX =>
    simp only [createIndividual, isLog, if_true, geneBounds]
    simp only [drawRange] at hr1 hr2
    exact rpow_mem_of_logb_mem (by norm_num) (by norm_num) hr1 hr2
  case K_Z =>
    simp only [createIndividual, isLog, if_true, geneBounds]
    simp only [drawRange] at hr1 hr2
    exact rpow_mem_of_logb_mem (by norm_num) ten_rpow_35_pos hr1 hr2
  case p_Z =>
    simp only [createIndividual, isLog, if_true, geneBounds]
    simp only [drawRange] at hr1 hr2
    exact rpow_mem_of_logb_mem (by norm_num) (by norm_num) hr1 hr2

/-- C1: every parameter vector produced by initialization (with the uniform
draws taken from their declared ranges), by crossover of two in-bounds
parents, or by mutation of an in-bounds individual, has all seven gene
values inside the declared GENE_BOUNDS interval, inclusive at both
endpoints. -/
theorem claim_C1_bounds_invariant (r : Gene → ℝ) (p1 p2 q : Params)
    (alpha : Gene → ℝ) (m : Gene → Bool × ℝ)
    (hr : ∀ g, (drawRange g).1 ≤ r g ∧ r g ≤ (drawRange g).2)
    (h1 : inBounds p1) (h2 : inBounds p2) (hq : inBounds q) :
    inBounds (createIndividual r) ∧
      inBounds (crossover p1 p2 alpha).1 ∧
      inBounds (crossover p1 p2 alpha).2 ∧
      inBounds (mutate q m) := by
  refine ⟨fun g => createIndividual_mem r hr g,
    fun g => crossoverGene_mem g (p1 g) (p2 g) (alpha g),
    fun g => crossoverGene_mem g (p2 g) (p1 g) (alpha g),
    fun g => mutate_mem q m hq g⟩

/-- Concrete uniform draws for the C1 witness, one per gene, each inside its
drawing range. -/
def rW : Gene → ℝ
  | .initLR => -1
  | .TKI_effect => 1
  | .p_XY => -1
  | .p_YX => -1
  | .p_Y => 1
  | .K_Z => 2
  | .p_Z => 3

/-- Concrete in-bounds parameter vector for the C1 witness. -/
def pW : Params := fun g =>
  match g with
  | .initLR => -1
  | .TKI_effect => 1
  | .p_XY => 1e-5
  | .p_YX => 1e-5
  | .p_Y => 1
  | .K_Z => 100
  | .p_Z => 100

lemma hundred_le_ten_rpow_35 : (100 : ℝ) ≤ (10 : ℝ) ^ (3.5 : ℝ) := by
  have h : (100 : ℝ) = (10 : ℝ) ^ (2 : ℝ) := by
    rw [show ((2 : ℝ) = ((2 : ℕ) : ℝ)) by norm_num, Real.rpow_natCast]
    norm_num
  rw [h]
  exact (Real.rpow_le_rpow_left_iff one_lt_ten).mpr (by norm_num)

lemma pW_inBounds : inBounds pW := by
  intro g
  cases g
  case K_Z =>
    simp only [pW, geneBounds]
    exact ⟨by norm_num, hundred_le_ten_rpow_35⟩
  all_goals norm_num [pW, geneBounds]

lemma rW_mem : ∀ g, (drawRange g).1 ≤ rW g ∧ rW g ≤ (drawRange g).2 := by
  intro g
  cases g
  case initLR => norm_num [rW, drawRange]
  case TKI_effect => norm_num [rW, drawRange]
  case p_Y => norm_num [rW, drawRange]
  case p_XY =>
    simp only [rW, drawRange]
    rw [logb_ten_1em10, Real.logb_one]
    constructor <;> norm_num
  case p_YX =>
    simp only [rW, drawRange]
    rw [logb_ten_1em10, Real.logb_one]
    constructor <;> norm_num
  case K_Z =>
    simp only [rW, drawRange]
    rw [Real.logb_self_eq_one one_lt_ten,
      Real.logb_rpow (by norm_num) (by norm_num)]
    constructor <;> norm_num
  case p_Z =>
    simp only [rW, drawRange]
    constructor
    · rw [Real.logb_le_iff_le_rpow one_lt_ten (by norm_num)]
      have h : (10 : ℝ) ^ (3 : ℝ) = 1000 := by
        rw [show ((3 : ℝ) = ((3 : ℕ) : ℝ)) by norm_num, Real.rpow_natCast]
        norm_num
      rw [h]; norm_num
    · rw [Real.le_logb_iff_rpow_le one_lt_ten (by norm_num)]
      have h : (10 : ℝ) ^ (3 : ℝ) = 1000 := by
        rw [show ((3 : ℝ) = ((3 : ℕ) : ℝ)) by norm_num, Real.rpow_natCast]
        norm_num
      rw [h]; norm_num

/-- Witness for C1 at concrete draws, parents and mutation randomness. -/
theorem claim_C1_bounds_invariant_witness :
    inBounds (createIndividual rW) ∧
      inBounds (crossover pW pW (fun _ => 1 / 2)).1 ∧
      inBounds (crossover pW pW (fun _ => 1 / 2)).2 ∧
      inBounds (mutate pW (fun _ => (false, 0))) :=
  claim_C1_bounds_invariant rW pW pW pW (fun _ => 1 / 2) (fun _ => (false, 0))
    rW_mem pW_inBounds pW_inBounds pW_inBounds

/-- K_Y, the fixed carrying capacity of the Y compartment (1e6). -/
def KY : ℝ := 1e6

/-- calculate_lratio Y: log10 of the BCR-ABL ratio computed from Y; the
ratio Y / (Y + 2*(K_Y - Y)) is set to 1e-12 when the denominator is
non-positive and is clipped into [1e-12, 1.0] before taking log10. -/
def calculate_lratio (Y : ℝ) : ℝ :=
  Real.logb 10
    (npclip (if Y + 2 * (KY - Y) ≤ 0 then 1e-12 else Y / (Y + 2 * (KY - Y)))
      1e-12 1)

/-- calculate_bcr_abl_ratio_decimal Y: the BCR-ABL ratio in decimal scale,
floored at 1e-12; returns 1e-12 when the denominator is non-positive. -/
def calculate_bcr_abl_ratio_decimal (Y : ℝ) : ℝ :=
  if Y + 2 * (KY - Y) ≤ 0 then 1e-12 else max (Y / (Y + 2 * (KY - Y))) 1e-12

lemma denom_pos {y : ℝ} (h2 : y ≤ KY) : 0 < y + 2 * (KY - y) := by
  have hK : KY = 1e6 := rfl
  nlinarith [h2]

lemma ratio_le_one {y : ℝ} (h2 : y ≤ KY) :
    y / (y + 2 * (KY - y)) ≤ 1 := by
  rw [div_le_one (denom_pos h2)]
  linarith

lemma ratio_decimal_eq {y : ℝ} (h2 : y ≤ KY) :
    calculate_bcr_abl_ratio_decimal y = max (y / (y + 2 * (KY - y))) 1e-12 := by
  unfold calculate_bcr_abl_ratio_decimal
  rw [if_neg (not_le.mpr (denom_pos h2))]

lemma lratio_eq_logb_ratio {y : ℝ} (h2 : y ≤ KY) :
    calculate_lratio y = Real.logb 10 (calculate_bcr_abl_ratio_decimal y) := by
  unfold calculate_lratio npclip
  rw [if_neg (not_le.mpr (denom_pos h2)), ratio_decimal_eq h2,
    min_eq_right (max_le (ratio_le_one h2) (by norm_num))]

lemma ratio_mono {y1 y2 : ℝ} (h0 : 0 ≤ y1) (h12 : y1 ≤ y2) (h2 : y2 ≤ KY) :
    y1 / (y1 + 2 * (KY - y1)) ≤ y2 / (y2 + 2 * (KY - y2)) := by
  rw [div_le_div_iff₀ (denom_pos (le_trans h12 h2)) (denom_pos h2)]
  nlinarith [mul_nonneg (sub_nonneg.mpr h12) (show (0 : ℝ) ≤ 2 * KY by norm_num [KY])]

/-- C6: for all non-negative Y up to K_Y, the linear-ratio and log-ratio
conversions are weakly increasing in Y, and the log-ratio equals log10 of
the linear ratio. -/
theorem claim_C6_metrics_monotone (y1 y2 : ℝ)
    (h0 : 0 ≤ y1) (h12 : y1 ≤ y2) (h2 : y2 ≤ KY) :
    calculate_bcr_abl_ratio_decimal y1 ≤ calculate_bcr_abl_ratio_decimal y2 ∧
      calculate_lratio y1 ≤ calculate_lratio y2 ∧
      calculate_lratio y1 = Real.logb 10 (calculate_bcr_abl_ratio_decimal y1) ∧
      calculate_lratio y2 = Real.logb 10 (calculate_bcr_abl_ratio_decimal y2) := by
  have h1K : y1 ≤ KY := le_trans h12 h2
  have hdec : calculate_bcr_abl_ratio_decimal y1 ≤ calculate_bcr_abl_ratio_decimal y2 := by
    rw [ratio_decimal_eq h1K, ratio_decimal_eq h2]
    exact max_le_max (ratio_mono h0 h12 h2) le_rfl
  refine ⟨hdec, ?_, lratio_eq_logb_ratio h1K, lratio_eq_logb_ratio h2⟩
  rw [lratio_eq_logb_ratio h1K, lratio_eq_logb_ratio h2]
  have hpos : (0 : ℝ) < calculate_bcr_abl_ratio_decimal y1 := by
    rw [ratio_decimal_eq h1K]
    exact lt_of_lt_of_le (by norm_num) (le_max_right _ _)
  exact Real.logb_le_logb_of_le one_lt_ten hpos hdec

/-- Witness for C6 at Y values 0 and K_Y. -/
theorem claim_C6_metrics_monotone_witness :
    calculate_bcr_abl_ratio_decimal 0 ≤ calculate_bcr_abl_ratio_decimal KY ∧
      calculate_lratio 0 ≤ calculate_lratio KY ∧
      calculate_lratio 0 = Real.logb 10 (calculate_bcr_abl_ratio_decimal 0) ∧
      calculate_lratio KY = Real.logb 10 (calculate_bcr_abl_ratio_decimal KY) :=
  claim_C6_metrics_monotone 0 KY le_rfl (by norm_num [KY]) le_rfl

/-- Stable insertion of a breakpoint into a list already sorted by time: the
new pair is placed before every entry whose time is not strictly smaller, so
entries with equal time keep their original relative order. -/
def insertByTime (p : ℚ × ℚ) : List (ℚ × ℚ) → List (ℚ × ℚ)
  | [] => [p]
  | q :: rest => if q.1 < p.1 then q :: insertByTime p rest else p :: q :: rest

/-- sorted(time_dose_pairs, key=time): Python sorted is a stable sort by the
time component; modelled by stable insertion sort (any stable sort computes
the same list). -/
def sortByTime : List (ℚ × ℚ) → List (ℚ × ℚ)
  | [] => []
  | p :: rest => insertByTime p (sortByTime rest)

/-- The dose-lookup loop inside model_with_variable_dosing: scan the sorted
breakpoints in order, remembering the dose of each breakpoint with time ≤ t,
and break at the first breakpoint with time > t; acc is the dose remembered
so far (initially the default 1.0). -/
def doseScan (t : ℚ) : ℚ → List (ℚ × ℚ) → ℚ
  | acc, [] => acc
  | acc, p :: rest => if p.1 ≤ t then doseScan t p.2 rest else acc

/-- The dose simulate_model_with_variable_dosing applies at evaluation time
t: the breakpoint list is sorted by time first and then scanned. -/
def simDoseAt (pairs : List (ℚ × ℚ)) (t : ℚ) : ℚ :=
  doseScan t 1 (sortByTime pairs)

lemma mem_insertByTime {x p : ℚ × ℚ} {l : List (ℚ × ℚ)} :
    x ∈ insertByTime p l ↔ x = p ∨ x ∈ l := by
  induction l with
  | nil => simp [insertByTime]
  | cons q rest ih =>
    by_cases h : q.1 < p.1
    · simp only [insertByTime, if_pos h, List.mem_cons, ih]
      tauto
    · simp only [insertByTime, if_neg h, List.mem_cons]

lemma pairwise_insertByTime {p : ℚ × ℚ} {l : List (ℚ × ℚ)}
    (hl : l.Pairwise (fun a b => a.1 ≤ b.1)) :
    (insertByTime p l).Pairwise (fun a b => a.1 ≤ b.1) := by
  induction l with
  | nil => simp [insertByTime]
  | cons q rest ih =>
    rw [List.pairwise_cons] at hl
    by_cases h : q.1 < p.1
    · rw [insertByTime, if_pos h, List.pairwise_cons]
      refine ⟨?_, ih hl.2⟩
      intro x hx
      rcases mem_insertByTime.mp hx with rfl | hx
      · exact le_of_lt h
      · exact hl.1 x hx
    · rw [insertByTime, if_neg h, List.pairwise_cons]
      refine ⟨?_, List.pairwise_cons.mpr hl⟩
      intro x hx
      rcases List.mem_cons.mp hx with rfl | hx
      · exact le_of_not_lt h
      · exact le_trans (le_of_not_lt h) (hl.1 x hx)

lemma pairwise_sortByTime (l : List (ℚ × ℚ)) :
    (sortByTime l).Pairwise (fun a b => a.1 ≤ b.1) := by
  induction l with
  | nil => simp [sortByTime]
  | cons p rest ih => exact pairwise_insertByTime ih

lemma mem_sortByTime {x : ℚ × ℚ} {l : List (ℚ × ℚ)} :
    x ∈ sortByTime l ↔ x ∈ l := by
  induction l with
  | nil => simp [sortByTime]
  | cons p rest ih => simp [sortByTime, mem_insertByTime, ih]

lemma doseScan_eq_getLast_filter {t : ℚ} :
    ∀ (l : List (ℚ × ℚ)), l.Pairwise (fun a b => a.1 ≤ b.1) → ∀ acc : ℚ,
      doseScan t acc l =
        (((l.filter fun p => decide (p.1 ≤ t)).getLast?).map Prod.snd).getD acc := by
  intro l
  induction l with
  | nil => intro _ acc; simp [doseScan]
  | cons p rest ih =>
    intro hl acc
    rw [List.pairwise_cons] at hl
    by_cases hp : p.1 ≤ t
    · rw [doseScan, if_pos hp, ih hl.2 p.2]
      have hf : (p :: rest).filter (fun q => decide (q.1 ≤ t)) =
          p :: rest.filter (fun q => decide (q.1 ≤ t)) := by
        simp [List.filter_cons, hp]
      rw [hf]
      cases hfr : rest.filter (fun q => decide (q.1 ≤ t)) with
      | nil => simp
      | cons q l2 =>
        rw [List.getLast?_cons_cons]
        cases hz : (q :: l2).getLast? with
        | none => exact absurd (List.getLast?_eq_none_iff.mp hz) (List.cons_ne_nil q l2)
        | some z => simp [hz]
    · rw [doseScan, if_neg hp]
      have hf : (p :: rest).filter (fun q => decide (q.1 ≤ t)) = [] := by
        rw [List.filter_eq_nil_iff]
        intro q hq
        simp only [decide_eq_true_eq]
        rcases List.mem_cons.mp hq with rfl | hq2
        · exact hp
        · intro hqt
          exact hp (le_trans (hl.1 q hq2) hqt)
      rw [hf]
      simp

/-- C5: the dose applied at evaluation time t is the dose of the latest
breakpoint (of the list sorted by time) whose time is ≤ t, and it is the
default 1.0 when t is strictly before every breakpoint time. -/
theorem claim_C5_dose_step_function (pairs : List (ℚ × ℚ)) (t : ℚ) :
    simDoseAt pairs t =
      ((((sortByTime pairs).filter fun p => decide (p.1 ≤ t)).getLast?).map
        Prod.snd).getD 1 ∧
      ((∀ p ∈ pairs, t < p.1) → simDoseAt pairs t = 1) := by
  have h1 : simDoseAt pairs t =
      ((((sortByTime pairs).filter fun p => decide (p.1 ≤ t)).getLast?).map
        Prod.snd).getD 1 :=
    doseScan_eq_getLast_filter (sortByTime pairs) (pairwise_sortByTime pairs) 1
  refine ⟨h1, fun hall => ?_⟩
  rw [h1]
  have hf : (sortByTime pairs).filter (fun p => decide (p.1 ≤ t)) = [] := by
    rw [List.filter_eq_nil_iff]
    intro p hp
    simp only [decide_eq_true_eq]
    exact not_le.mpr (hall p (mem_sortByTime.mp hp))
  rw [hf]
  simp

/-- Witness for C5: a single breakpoint at time 3; at time 1 (strictly
before it) the applied dose is the default 1.0. -/
theorem claim_C5_dose_step_function_witness :
    (∀ p ∈ [((3 : ℚ), (1 / 2 : ℚ))], (1 : ℚ) < p.1) ∧
      simDoseAt [((3 : ℚ), (1 / 2 : ℚ))] 1 = 1 :=
  ⟨by decide, (claim_C5_dose_step_function [((3 : ℚ), (1 / 2 : ℚ))] 1).2 (by decide)⟩

/-- DETECTION_LIMIT = 0.0001, the BCR-ABL detection limit. -/
def DETECTION_LIMIT : ℚ := 1 / 10000

/-- A float produced by the ODE solver: either a finite real, NaN, or an
infinity. -/
inductive FloatV where
  | fin : ℝ → FloatV
  | nan : FloatV
  | inf : FloatV

/-- True exactly when the value is neither NaN nor infinite. -/
def FloatV.isFin : FloatV → Bool
  | .fin _ => true
  | _ => false

/-- The real value of a finite float (0 for the non-finite cases, which the
fitness functions never reach because they test isFin first). -/
def FloatV.val : FloatV → ℝ
  | .fin x => x
  | _ => 0

/-- A clinical value: the ND (not detected) sentinel or a measured fraction. -/
inductive ClinicalVal where
  | nd : ClinicalVal
  | meas : ℚ → ClinicalVal

/-- One clinical data point (month, BCR-ABL value, dose fraction). -/
structure DataPoint where
  t : ℚ
  val : ClinicalVal
  dose : ℚ

/-- np.any(np.isnan(solution)) or np.any(np.isinf(solution)) over the three
state columns of the trajectory. -/
def hasBadVal (sol : List (FloatV × FloatV × FloatV)) : Bool :=
  sol.any fun s => !s.1.isFin || !s.2.1.isFin || !s.2.2.isFin

/-- Y_sim = solution[:, 1], the Y column of the trajectory. -/
def Yvals (sol : List (FloatV × FloatV × FloatV)) : List ℝ :=
  sol.map fun s => s.2.1.val

/-- The (time, dose) pairs handed to the simulator, taken from the clinical
data in order. -/
def timeDosePairs (data : List DataPoint) : List (ℚ × ℚ) :=
  data.map fun p => (p.t, p.dose)

/-- lratio_simulated_dict: the sorted simulation times zipped with the
log-ratios of the Y values. -/
def lratioPairs (data : List DataPoint) (Ys : List ℝ) : List (ℚ × ℝ) :=
  List.zip ((sortByTime (timeDosePairs data)).map Prod.fst)
    (Ys.map calculate_lratio)

/-- Python dict lookup for a dict built from an association list: the last
binding of a key wins; none when the key is absent. -/
def dictLookup (l : List (ℚ × ℝ)) (t : ℚ) : Option ℝ :=
  ((l.filter fun p => decide (p.1 = t)).getLast?).map Prod.snd

/-- The simulated log-ratio available to calculate_fitness at month t. -/
def fitLookup (sol : List (FloatV × FloatV × FloatV)) (data : List DataPoint)
    (t : ℚ) : Option ℝ :=
  dictLookup (lratioPairs data (Yvals sol)) t

/-- The phase weight of calculate_fitness: 2.0 at full dose, 1.5 at half
dose, 1.3 at quarter dose, 2.5 post-cessation, 1.0 otherwise. -/
def base_weight (dose : ℚ) : ℝ :=
  if dose = 1 then 2.0
  else if dose = 1 / 2 then 1.5
  else if dose = 1 / 4 then 1.3
  else if dose = 0 then 2.5
  else 1.0

/-- The contribution of one clinical point to calculate_fitness, as the
triple (error added, weight added, points counted). A point whose month is
not in the simulated dict is skipped; ND points above the detection
threshold add the squared gap times base_weight*3.0 and that same weight, ND
points at or below it add only base_weight*0.1 to the weight sum; measured
values outside (0, 100] are skipped; other measured values add the weighted
squared log-ratio gap, with an extra 1.5 factor below 0.01. (The source also
skips a NaN or infinite lratio_sim, a case that cannot arise here because
calculate_lratio of a real is a real.) -/
def pointContrib (dl : ℚ) (lookup : ℚ → Option ℝ) (p : DataPoint) :
    ℝ × ℝ × ℕ :=
  match lookup p.t with
  | none => (0, 0, 0)
  | some lsim =>
    match p.val with
    | .nd =>
      if Real.logb 10 (max (dl : ℝ) 1e-12) < lsim then
        ((lsim - Real.logb 10 (max (dl : ℝ) 1e-12)) ^ 2 *
            (base_weight p.dose * 3.0),
          base_weight p.dose * 3.0, 1)
      else (0, base_weight p.dose * 0.1, 1)
    | .meas v =>
      if v ≤ 0 ∨ 100 < v then (0, 0, 0)
      else
        ((lsim - Real.logb 10 (max (v : ℝ) 1e-12)) ^ 2 *
            (if v < 1 / 100 then base_weight p.dose * 1.5 else base_weight p.dose),
          (if v < 1 / 100 then base_weight p.dose * 1.5 else base_weight p.dose),
          1)

/-- The accumulation loop of calculate_fitness: componentwise sum of the
per-point contributions (total_error, weights_sum, measured_points). -/
def fitnessAccum (dl : ℚ) (lookup : ℚ → Option ℝ) (data : List DataPoint) :
    ℝ × ℝ × ℕ :=
  data.foldl (fun acc p => acc + pointContrib dl lookup p) (0, 0, 0)

/-- measured_points after the loop of calculate_fitness. -/
def measured_points (dl : ℚ) (lookup : ℚ → Option ℝ)
    (data : List DataPoint) : ℕ :=
  (fitnessAccum dl lookup data).2.2

/-- weights_sum after the loop of calculate_fitness. -/
def weights_sum (dl : ℚ) (lookup : ℚ → Option ℝ)
    (data : List DataPoint) : ℝ :=
  (fitnessAccum dl lookup data).2.1

/-- total_error after the loop of calculate_fitness. -/
def total_error (dl : ℚ) (lookup : ℚ → Option ℝ)
    (data : List DataPoint) : ℝ :=
  (fitnessAccum dl lookup data).1

/-- calculate_fitness, with the solver trajectory supplied as `sol`:
returns -1e12 when the trajectory has a NaN or infinity, when some Y value
is negative or exceeds K_Y*100, or when no point contributed
(measured_points == 0 or weights_sum == 0); otherwise the negated
weight-normalized error, additionally scaled by 5.0/measured_points when
fewer than 3 points contributed. -/
def calculate_fitness (sol : List (FloatV × FloatV × FloatV))
    (data : List DataPoint) (dl : ℚ) : ℝ :=
  if hasBadVal sol then -1e12
  else if (Yvals sol).any (fun y => decide (y < 0)) ||
      (Yvals sol).any (fun y => decide (KY * 100 < y)) then -1e12
  else if measured_points dl (fitLookup sol data) data = 0 ∨
      weights_sum dl (fitLookup sol data) data = 0 then -1e12
  else if measured_points dl (fitLookup sol data) data < 3 then
    -(total_error dl (fitLookup sol data) data /
        weights_sum dl (fitLookup sol data) data *
        (5.0 / (measured_points dl (fitLookup sol data) data : ℝ)))
  else
    -(total_error dl (fitLookup sol data) data /
        weights_sum dl (fitLookup sol data) data)

/-- The per-point error list entry of calculate_fitness_simple (the source
appends at most one error per clinical point). -/
def simpleContrib (dl : ℚ) (lookup : ℚ → Option ℝ) (p : DataPoint) :
    List ℝ :=
  match lookup p.t with
  | none => []
  | some lsim =>
    match p.val with
    | .nd =>
      if Real.logb 10 (dl : ℝ) < lsim then
        [(lsim - Real.logb 10 (dl : ℝ)) ^ 2 *
          (if p.dose = 0 then 2.0 else 1.0) * 2.0]
      else []
    | .meas v =>
      if v ≤ 0 ∨ 100 < v then []
      else
        [(lsim - Real.logb 10 (max (v : ℝ) 1e-12)) ^ 2 *
          (if p.dose = 0 then 2.0 else 1.0)]

/-- calculate_fitness_simple, with the solver trajectory supplied as `sol`:
same validity checks, then the negated mean of the simple error list (and
-1e12 when that list is empty). -/
def calculate_fitness_simple (sol : List (FloatV × FloatV × FloatV))
    (data : List DataPoint) (dl : ℚ) : ℝ :=
  if hasBadVal sol then -1e12
  else if (Yvals sol).any (fun y => decide (y < 0)) ||
      (Yvals sol).any (fun y => decide (KY * 100 < y)) then -1e12
  else if ((data.map (simpleContrib dl (fitLookup sol data))).flatten).length = 0 then
    -1e12
  else
    -(((data.map (simpleContrib dl (fitLookup sol data))).flatten).sum /
      (((data.map (simpleContrib dl (fitLookup sol data))).flatten).length : ℝ))

/-- C2: calculate_fitness returns the sentinel -1e12 whenever the trajectory
contains a NaN or an infinity, whenever measured_points is zero, or
whenever weights_sum is zero. -/
theorem claim_C2_fitness_sentinel (sol : List (FloatV × FloatV × FloatV))
    (data : List DataPoint)
    (h : hasBadVal sol = true ∨
      measured_points DETECTION_LIMIT (fitLookup sol data) data = 0 ∨
      weights_sum DETECTION_LIMIT (fitLookup sol data) data = 0) :
    calculate_fitness sol data DETECTION_LIMIT = -1e12 := by
  unfold calculate_fitness
  split_ifs with h1 h2 h3 h4
  · rfl
  · rfl
  · rfl
  · exact absurd (h.resolve_left h1) h3
  · exact absurd (h.resolve_left h1) h3

/-- Witness for C2: a trajectory containing a NaN entry. -/
theorem claim_C2_fitness_sentinel_witness :
    calculate_fitness [(FloatV.nan, FloatV.nan, FloatV.nan)] []
      DETECTION_LIMIT = -1e12 :=
  claim_C2_fitness_sentinel [(FloatV.nan, FloatV.nan, FloatV.nan)] []
    (Or.inl rfl)

lemma logb_ten_1em4 : Real.logb 10 (1e-4 : ℝ) = -4 := by
  have h : (1e-4 : ℝ) = (10 : ℝ) ^ (-4 : ℝ) := by
    rw [show ((-4 : ℝ) = ((-4 : ℤ) : ℝ)) by norm_num, Real.rpow_intCast]
    norm_num
  rw [h, Real.logb_rpow (by norm_num) (by norm_num)]

lemma max_detection_limit :
    max ((DETECTION_LIMIT : ℚ) : ℝ) 1e-12 = (1e-4 : ℝ) := by
  have h : ((DETECTION_LIMIT : ℚ) : ℝ) = (1e-4 : ℝ) := by
    norm_num [DETECTION_LIMIT]
  rw [h]
  norm_num

/-- C3: appending an ND clinical point to the data adds, when the simulated
log-ratio is strictly above log10(detection_limit) = log10(1e-4), the
squared gap times base_weight*3.0 to the error sum and that same weight to
the weight sum; when the simulated log-ratio is at or below the threshold it
adds nothing to the error sum and only base_weight*0.1 to the weight sum;
in particular an ND point at dose 1.0 with simulated log-ratio strictly
below log10(0.0001) contributes no squared-error penalty. -/
theorem claim_C3_nd_handling (lookup : ℚ → Option ℝ) (pre : List DataPoint)
    (t dose : ℚ) (lsim : ℝ) (hl : lookup t = some lsim) :
    (Real.logb 10 (1e-4 : ℝ) < lsim →
      fitnessAccum DETECTION_LIMIT lookup (pre ++ [⟨t, .nd, dose⟩]) =
        fitnessAccum DETECTION_LIMIT lookup pre +
          ((lsim - Real.logb 10 (1e-4 : ℝ)) ^ 2 * (base_weight dose * 3.0),
            base_weight dose * 3.0, 1)) ∧
      (lsim ≤ Real.logb 10 (1e-4 : ℝ) →
        fitnessAccum DETECTION_LIMIT lookup (pre ++ [⟨t, .nd, dose⟩]) =
          fitnessAccum DETECTION_LIMIT lookup pre +
            (0, base_weight dose * 0.1, 1)) ∧
      (dose = 1 → lsim < Real.logb 10 (1e-4 : ℝ) →
        (fitnessAccum DETECTION_LIMIT lookup (pre ++ [⟨t, .nd, dose⟩])).1 =
          (fitnessAccum DETECTION_LIMIT lookup pre).1) := by
  have hstep : fitnessAccum DETECTION_LIMIT lookup (pre ++ [⟨t, .nd, dose⟩]) =
      fitnessAccum DETECTION_LIMIT lookup pre +
        pointContrib DETECTION_LIMIT lookup ⟨t, .nd, dose⟩ := by
    unfold fitnessAccum
    rw [List.foldl_append]
    rfl
  have hpt : pointContrib DETECTION_LIMIT lookup ⟨t, .nd, dose⟩ =
      if Real.logb 10 (1e-4 : ℝ) < lsim then
        ((lsim - Real.logb 10 (1e-4 : ℝ)) ^ 2 * (base_weight dose * 3.0),
          base_weight dose * 3.0, 1)
      else (0, base_weight dose * 0.1, 1) := by
    unfold pointContrib
    rw [hl]
    simp only [max_detection_limit]
  refine ⟨fun hgt => ?_, fun hle => ?_, fun hd hlt => ?_⟩
  · rw [hstep, hpt, if_pos hgt]
  · rw [hstep, hpt, if_neg (not_lt.mpr hle)]
  · rw [hstep, hpt, if_neg (not_lt.mpr (le_of_lt hlt))]
    simp

/-- Lookup oracle for the C3 witness: simulated log-ratio -5 at any month. -/
def lkW : ℚ → Option ℝ := fun _ => some (-5)

/-- Witness for C3: an ND point at dose 1.0 whose simulated log-ratio -5 is
below log10(0.0001); only the small bonus weight is contributed. -/
theorem claim_C3_nd_handling_witness :
    fitnessAccum DETECTION_LIMIT lkW ([] ++ [⟨0, .nd, 1⟩]) =
      fitnessAccum DETECTION_LIMIT lkW [] + (0, base_weight 1 * 0.1, 1) :=
  (claim_C3_nd_handling lkW [] 0 1 (-5) rfl).2.1
    (by rw [logb_ten_1em4]; norm_num)

/-- C10: when the trajectory is entirely finite but some simulated Y value
is negative or exceeds K_Y*100 = 1e8, both calculate_fitness and
calculate_fitness_simple return the sentinel -1e12 before scoring any
clinical point. -/
theorem claim_C10_physical_validity (sol : List (FloatV × FloatV × FloatV))
    (data : List DataPoint) (hfin : hasBadVal sol = false)
    (hbad : ∃ y ∈ Yvals sol, y < 0 ∨ KY * 100 < y) :
    calculate_fitness sol data DETECTION_LIMIT = -1e12 ∧
      calculate_fitness_simple sol data DETECTION_LIMIT = -1e12 ∧
      KY * 100 = 1e8 := by
  have hcond : ((Yvals sol).any (fun y => decide (y < 0)) ||
      (Yvals sol).any (fun y => decide (KY * 100 < y))) = true := by
    rw [Bool.or_eq_true, List.any_eq_true, List.any_eq_true]
    obtain ⟨y, hy, hcase⟩ := hbad
    rcases hcase with hneg | hbig
    · exact Or.inl ⟨y, hy, by simpa using hneg⟩
    · exact Or.inr ⟨y, hy, by simpa using hbig⟩
  refine ⟨?_, ?_, by norm_num [KY]⟩
  · unfold calculate_fitness
    rw [if_neg (by simp [hfin]), if_pos hcond]
  · unfold calculate_fitness_simple
    rw [if_neg (by simp [hfin]), if_pos hcond]

/-- Witness for C10: a finite trajectory with a negative Y value. -/
theorem claim_C10_physical_validity_witness :
    calculate_fitness [(FloatV.fin 0, FloatV.fin (-1), FloatV.fin 0)] []
        DETECTION_LIMIT = -1e12 ∧
      calculate_fitness_simple [(FloatV.fin 0, FloatV.fin (-1), FloatV.fin 0)]
        [] DETECTION_LIMIT = -1e12 ∧
      KY * 100 = 1e8 :=
  claim_C10_physical_validity [(FloatV.fin 0, FloatV.fin (-1), FloatV.fin 0)]
    [] rfl ⟨-1, by simp [Yvals, FloatV.val], Or.inl (by norm_num)⟩

/-- The maximum of a fitness list (0 for the empty list, which the
algorithm never evaluates). -/
def maxFit : List ℝ → ℝ
  | [] => 0
  | v :: rest => rest.foldl max v

lemma foldl_max_cases : ∀ (l : List ℝ) (v : ℝ),
    l.foldl max v = v ∨ l.foldl max v ∈ l
  | [], _ => Or.inl rfl
  | w :: r, v => by
    rcases foldl_max_cases r (max v w) with h | h
    · rcases max_choice v w with hm | hm
      · exact Or.inl (by rw [List.foldl_cons, h, hm])
      · refine Or.inr ?_
        rw [List.foldl_cons, h, hm]
        exact List.mem_cons_self _ _
    · exact Or.inr (List.mem_cons_of_mem _ h)

lemma le_foldl_max : ∀ (l : List ℝ) (v : ℝ),
    v ≤ l.foldl max v ∧ ∀ x ∈ l, x ≤ l.foldl max v
  | [], v => ⟨le_rfl, by simp⟩
  | w :: r, v => by
    obtain ⟨h1, h2⟩ := le_foldl_max r (max v w)
    refine ⟨le_trans (le_max_left v w) h1, ?_⟩
    intro x hx
    rcases List.mem_cons.mp hx with rfl | hx2
    · exact le_trans (le_max_right v x) h1
    · exact h2 x hx2

lemma maxFit_mem {l : List ℝ} (h : l ≠ []) : maxFit l ∈ l := by
  cases l with
  | nil => exact absurd rfl h
  | cons v rest =>
    rcases foldl_max_cases rest v with h1 | h1
    · rw [maxFit, h1]
      exact List.mem_cons_self _ _
    · exact List.mem_cons_of_mem _ (by rw [maxFit]; exact h1)

lemma le_maxFit {l : List ℝ} {x : ℝ} (hx : x ∈ l) : x ≤ maxFit l := by
  cases l with
  | nil => simp at hx
  | cons v rest =>
    rcases List.mem_cons.mp hx with rfl | hmem
    · exact (le_foldl_max rest x).1
    · exact (le_foldl_max rest v).2 x hmem

/-- int(np.argmax(fitnesses)): the first index at which the maximal value
occurs (np.argmax returns the first occurrence of the maximum). -/
def argmaxIdx (l : List ℝ) : ℕ := List.indexOf (maxFit l) l

lemma argmaxIdx_lt {l : List ℝ} (h : l ≠ []) : argmaxIdx l < l.length :=
  List.indexOf_lt_length.mpr (maxFit_mem h)

lemma getD_argmaxIdx {l : List ℝ} (h : l ≠ []) :
    l.getD (argmaxIdx l) 0 = maxFit l := by
  rw [List.getD_eq_getElem?_getD, argmaxIdx,
    List.getElem?_indexOf (maxFit_mem h)]
  rfl

lemma getD_map_fit (fit : Params → ℝ) (pop : List Params) {i : ℕ}
    (h : i < pop.length) :
    (pop.map fit).getD i 0 = fit (pop.getD i default) := by
  rw [List.getD_eq_getElem?_getD, List.getD_eq_getElem?_getD,
    List.getElem?_map, List.getElem?_eq_getElem h]
  rfl

lemma getD_mem {l : List Params} {i : ℕ} (h : i < l.length) :
    l.getD i default ∈ l := by
  rw [List.getD_eq_getElem?_getD, List.getElem?_eq_getElem h]
  exact List.getElem_mem h

/-- max(contestants, key=lambda i: fitnesses[i]): keeps the first contestant
on ties, replacing only on strictly larger fitness. -/
def tournamentWinner (fits : List ℝ) : List ℕ → ℕ
  | [] => 0
  | c :: rest =>
    rest.foldl (fun b i => if fits.getD b 0 < fits.getD i 0 then i else b) c

/-- selection: one tournament per population slot; tournament k compares
the oracle-drawn contestant indices (contest k) and copies the winner. -/
def selection (pop : List Params) (fits : List ℝ) (contest : ℕ → List ℕ) :
    List Params :=
  (List.range pop.length).map fun k =>
    pop.getD (tournamentWinner fits (contest k)) default

/-- The randomness one iteration of the reproduction loop consumes: the
per-gene crossover coefficients and the mutation bundles of the two children. -/
structure PairRand where
  alpha : Gene → ℝ
  m1 : Gene → Bool × ℝ
  m2 : Gene → Bool × ℝ

/-- The reproduction loop: consume the mating pool two at a time (a final
unpaired parent is paired with selected[0], here `first`); every pair,
including the wrapped one, yields two mutated children. -/
def reproduceAux (first : Params) (pr : ℕ → PairRand) :
    ℕ → List Params → List Params
  | _, [] => []
  | k, [p] =>
    [mutate (crossover p first (pr k).alpha).1 (pr k).m1,
     mutate (crossover p first (pr k).alpha).2 (pr k).m2]
  | k, p1 :: p2 :: rest =>
    mutate (crossover p1 p2 (pr k).alpha).1 (pr k).m1 ::
      mutate (crossover p1 p2 (pr k).alpha).2 (pr k).m2 ::
      reproduceAux first pr (k + 1) rest

/-- The whole reproduction loop over the mating pool. -/
def reproduce (selected : List Params) (pr : ℕ → PairRand) : List Params :=
  reproduceAux (selected.getD 0 default) pr 0 selected

/-- Elitism: when the new population has at least 2 slots, overwrite slot 0
with the best individual of the current generation, and slot 1 with the
best of the previous generation (best_history[-2]) when a previous generation exists. -/
def applyElitism (newPop : List Params) (best : Params)
    (hist : List (Params × ℝ)) : List Params :=
  if 2 ≤ newPop.length then
    if 1 < hist.length then
      (newPop.set 0 best).set 1 (hist.getD (hist.length - 2) (default, 0)).1
    else newPop.set 0 best
  else newPop

/-- The randomness one generation consumes: tournament contestant draws and
the reproduction-loop bundles. -/
structure GenRand where
  contest : ℕ → List ℕ
  pair : ℕ → PairRand

/-- The state carried between generations: the number of stop-flag reads
consumed so far, the population, best_history, and the log of
progress-callback invocations (generation index, best individual, best
fitness). -/
structure GAState where
  reads : ℕ
  pop : List Params
  hist : List (Params × ℝ)
  cbs : List (ℕ × Params × ℝ)

/-- One generation body of genetic_algorithm (after the stop check):
evaluate, record the best, invoke the progress callback, select, reproduce
with mutation, and apply elitism. -/
def gaStep (fit : Params → ℝ) (rnd : GenRand) (g : ℕ) (s : GAState) :
    GAState :=
  let fits := s.pop.map fit
  let bestInd := s.pop.getD (argmaxIdx fits) default
  let bestFit := fits.getD (argmaxIdx fits) 0
  let hist2 := s.hist ++ [(bestInd, bestFit)]
  { reads := s.reads,
    pop := applyElitism (reproduce (selection s.pop fits rnd.contest) rnd.pair)
      bestInd hist2,
    hist := hist2,
    cbs := s.cbs ++ [(g, bestInd, bestFit)] }

/-- The generation loop of genetic_algorithm: before each generation the
stop flag is read once (stop_check); a false read breaks out of the loop. -/
def gaLoop (fit : Params → ℝ) (rnd : ℕ → GenRand) (flag : ℕ → Bool)
    (gens : ℕ) : ℕ → GAState → GAState
  | 0, s => s
  | n + 1, s =>
    if flag s.reads then
      gaLoop fit rnd flag gens n
        (gaStep fit (rnd (gens - (n + 1))) (gens - (n + 1))
          { s with reads := s.reads + 1 })
    else { s with reads := s.reads + 1 }

/-- genetic_algorithm: create the initial population, run the generation
loop, and return the final state together with the returned value
(best_history[-1][0], best_history); the second component is none exactly
when best_history is empty at the return statement, where the source raises
IndexError on best_history[-1]. -/
def genetic_algorithm (fit : Params → ℝ) (rnd : ℕ → GenRand)
    (initR : ℕ → Gene → ℝ) (popsize gens : ℕ) (flag : ℕ → Bool) (c0 : ℕ) :
    GAState × Option (Params × List (Params × ℝ)) :=
  let s := gaLoop fit rnd flag gens gens
    { reads := c0, pop := create_initial_population popsize initR,
      hist := [], cbs := [] }
  (s, s.hist.getLast?.map fun last => (last.1, s.hist))

lemma selection_length (pop : List Params) (fits : List ℝ)
    (c : ℕ → List ℕ) : (selection pop fits c).length = pop.length := by
  simp [selection]

lemma reproduceAux_length (first : Params) (pr : ℕ → PairRand) :
    ∀ (l : List Params) (k : ℕ),
      (reproduceAux first pr k l).length = 2 * ((l.length + 1) / 2)
  | [], _ => by simp [reproduceAux]
  | [p], _ => by simp [reproduceAux]
  | p1 :: p2 :: rest, k => by
    simp only [reproduceAux, List.length_cons]
    rw [reproduceAux_length first pr rest (k + 1)]
    omega

lemma reproduce_length (sel : List Params) (pr : ℕ → PairRand) :
    (reproduce sel pr).length = 2 * ((sel.length + 1) / 2) :=
  reproduceAux_length _ _ _ _

lemma applyElitism_length (np : List Params) (best : Params)
    (hist : List (Params × ℝ)) :
    (applyElitism np best hist).length = np.length := by
  unfold applyElitism
  split_ifs <;> simp

lemma applyElitism_head (np : List Params) (best : Params)
    (hist : List (Params × ℝ)) (h : 2 ≤ np.length) :
    (applyElitism np best hist).getD 0 default = best := by
  unfold applyElitism
  rw [if_pos h]
  split_ifs with h1
  · rw [List.getD_eq_getElem?_getD,
      List.getElem?_set_ne (by norm_num : (1 : ℕ) ≠ 0),
      List.getElem?_set_eq_of_lt _ (by omega)]
    rfl
  · rw [List.getD_eq_getElem?_getD,
      List.getElem?_set_eq_of_lt _ (by omega)]
    rfl

lemma getD_append_lt (l l2 : List (Params × ℝ)) {i : ℕ} (h : i < l.length)
    (d : Params × ℝ) : (l ++ l2).getD i d = l.getD i d := by
  rw [List.getD_eq_getElem?_getD, List.getD_eq_getElem?_getD,
    List.getElem?_append, if_pos h]

lemma getD_concat_length (l : List (Params × ℝ)) (x d : Params × ℝ) :
    (l ++ [x]).getD l.length d = x := by
  rw [List.getD_eq_getElem?_getD, List.getElem?_concat_length]
  rfl

/-- The elitism invariant carried across generations: the population keeps
at least 2 individuals, best_history fitnesses are non-decreasing, and when
a generation has already been recorded, population slot 0 holds the last
recorded best individual whose recorded fitness is its exact fitness. -/
def GAInv (fit : Params → ℝ) (s : GAState) : Prop :=
  2 ≤ s.pop.length ∧
    (∀ g, g + 1 < s.hist.length →
      (s.hist.getD g (default, 0)).2 ≤ (s.hist.getD (g + 1) (default, 0)).2) ∧
    (s.hist ≠ [] → ∃ hl, s.hist.getLast? = some hl ∧
      s.pop.getD 0 default = hl.1 ∧ hl.2 = fit hl.1)

lemma gaStep_inv (fit : Params → ℝ) (rnd : GenRand) (g : ℕ) (s : GAState)
    (h : GAInv fit s) : GAInv fit (gaStep fit rnd g s) := by
  obtain ⟨hlen, hmono, hlast⟩ := h
  have hpopne : s.pop ≠ [] := by
    intro he
    rw [he] at hlen
    simp at hlen
  have hfitsne : s.pop.map fit ≠ [] := by simp [hpopne]
  have hfitslen : (s.pop.map fit).length = s.pop.length := List.length_map _ _
  have hidx : argmaxIdx (s.pop.map fit) < s.pop.length := by
    have := argmaxIdx_lt hfitsne
    omega
  have hbfmax : (s.pop.map fit).getD (argmaxIdx (s.pop.map fit)) 0 =
      maxFit (s.pop.map fit) := getD_argmaxIdx hfitsne
  have hbind : (s.pop.map fit).getD (argmaxIdx (s.pop.map fit)) 0 =
      fit (s.pop.getD (argmaxIdx (s.pop.map fit)) default) :=
    getD_map_fit fit s.pop hidx
  have hnewlen : 2 ≤ (gaStep fit rnd g s).pop.length := by
    simp only [gaStep, applyElitism_length, reproduce_length, selection_length]
    omega
  refine ⟨hnewlen, ?_, ?_⟩
  · -- monotone history
    intro g2 hg2
    simp only [gaStep, List.length_append, List.length_cons,
      List.length_nil] at hg2 ⊢
    by_cases hcase : g2 + 1 < s.hist.length
    · rw [getD_append_lt _ _ (by omega), getD_append_lt _ _ hcase]
      exact hmono g2 hcase
    · -- g2 + 1 = s.hist.length: compare the old last entry to the new one
      have hg2eq : g2 + 1 = s.hist.length := by omega
      have hne : s.hist ≠ [] := by
        intro he
        rw [he] at hg2eq
        simp at hg2eq
      obtain ⟨hl, hlget, hl0, hlfit⟩ := hlast hne
      have hg2lt : g2 < s.hist.length := by omega
      rw [getD_append_lt _ _ hg2lt]
      have hgetlast : s.hist.getD g2 (default, 0) = hl := by
        have h1 : s.hist.getLast? = s.hist[g2]? := by
          rw [List.getLast?_eq_getElem?]
          congr 1
          omega
        rw [List.getD_eq_getElem?_getD, ← h1, hlget]
        rfl
      rw [hgetlast, hg2eq, getD_concat_length]
      have hmemfit : fit hl.1 ∈ s.pop.map fit := by
        rw [← hl0]
        exact List.mem_map_of_mem fit (getD_mem (by omega))
      show hl.2 ≤ (s.pop.map fit).getD (argmaxIdx (s.pop.map fit)) 0
      rw [hlfit, hbfmax]
      exact le_maxFit hmemfit
  · -- slot 0 of the new population holds the newly recorded best
    intro _
    refine ⟨(s.pop.getD (argmaxIdx (s.pop.map fit)) default,
      (s.pop.map fit).getD (argmaxIdx (s.pop.map fit)) 0), ?_, ?_, ?_⟩
    · simp only [gaStep]
      exact List.getLast?_concat _
    · simp only [gaStep]
      refine applyElitism_head _ _ _ ?_
      rw [reproduce_length, selection_length]
      omega
    · exact hbind

lemma gaLoop_inv (fit : Params → ℝ) (rnd : ℕ → GenRand) (flag : ℕ → Bool)
    (gens : ℕ) : ∀ (n : ℕ) (s : GAState),
      GAInv fit s → GAInv fit (gaLoop fit rnd flag gens n s)
  | 0, s, h => h
  | n + 1, s, h => by
    rw [gaLoop]
    split_ifs with hf
    · exact gaLoop_inv fit rnd flag gens n _ (gaStep_inv fit _ _ _ h)
    · exact h

/-- C4: in every run of the genetic algorithm with population size at least
2, the recorded best fitness of each evaluated generation is less than or
equal to the recorded best fitness of the next evaluated generation,
because elitism copies the best individual unchanged into slot 0 and the
(deterministic) fitness function evaluates it to the same value. -/
theorem claim_C4_elitism_monotone (fit : Params → ℝ) (rnd : ℕ → GenRand)
    (initR : ℕ → Gene → ℝ) (N gens : ℕ) (flag : ℕ → Bool) (c0 g : ℕ)
    (hN : 2 ≤ N)
    (hg : g + 1 <
      ((genetic_algorithm fit rnd initR N gens flag c0).1).hist.length) :
    (((genetic_algorithm fit rnd initR N gens flag c0).1).hist.getD g
        (default, 0)).2 ≤
      (((genetic_algorithm fit rnd initR N gens flag c0).1).hist.getD (g + 1)
        (default, 0)).2 := by
  have hinv : GAInv fit ((genetic_algorithm fit rnd initR N gens flag c0).1) := by
    have h0 : GAInv fit
        { reads := c0, pop := create_initial_population N initR,
          hist := [], cbs := [] } := by
      refine ⟨?_, ?_, ?_⟩
      · show 2 ≤ (create_initial_population N initR).length
        rw [create_initial_population, List.length_map, List.length_range]
        exact hN
      · intro g2 hg2
        simp at hg2
      · intro hne
        exact absurd rfl hne
    exact gaLoop_inv fit rnd flag gens gens _ h0
  exact hinv.2.1 g hg

lemma gaStep_hist_length (fit : Params → ℝ) (rnd : GenRand) (g : ℕ)
    (s : GAState) : (gaStep fit rnd g s).hist.length = s.hist.length + 1 := by
  simp [gaStep]

lemma gaLoop_hist_length (fit : Params → ℝ) (rnd : ℕ → GenRand)
    (flag : ℕ → Bool) (gens : ℕ) (hf : ∀ i, flag i = true) :
    ∀ (n : ℕ) (s : GAState),
      (gaLoop fit rnd flag gens n s).hist.length = s.hist.length + n
  | 0, _ => rfl
  | n + 1, s => by
    rw [gaLoop, if_pos (hf _),
      gaLoop_hist_length fit rnd flag gens hf n _, gaStep_hist_length]
    show s.hist.length + 1 + n = s.hist.length + (n + 1)
    omega

/-- Trivial randomness for concrete runs: tournaments always pick index 0,
crossover blends with coefficient 1/2, mutations never fire. -/
def rndW : GenRand :=
  ⟨fun _ => [0], fun _ => ⟨fun _ => 1 / 2, fun _ => (false, 0),
    fun _ => (false, 0)⟩⟩

/-- Witness for C4: a concrete 2-generation run with population 2 and a
constant fitness function; the second recorded best fitness is at least the
first. -/
theorem claim_C4_elitism_monotone_witness :
    (((genetic_algorithm (fun _ => 0) (fun _ => rndW) (fun _ _ => 0) 2 2
        (fun _ => true) 0).1).hist.getD 0 (default, 0)).2 ≤
      (((genetic_algorithm (fun _ => 0) (fun _ => rndW) (fun _ _ => 0) 2 2
        (fun _ => true) 0).1).hist.getD 1 (default, 0)).2 := by
  refine claim_C4_elitism_monotone (fun _ => 0) (fun _ => rndW) (fun _ _ => 0)
    2 2 (fun _ => true) 0 0 (by norm_num) ?_
  show 0 + 1 < _
  simp only [genetic_algorithm]
  rw [gaLoop_hist_length _ _ _ _ (fun _ => rfl)]
  simp

/-- C7 (amended): the population passed to the next generation has
2*ceil(N/2) individuals where N is the current population size — exactly N
when N is even, N+1 when N is odd (the wrapped odd pairing produces one
extra child); in particular the size is fixed from the second generation on
(every later population has even size). -/
theorem claim_C7_population_size_amended (fit : Params → ℝ) (rnd : GenRand)
    (g : ℕ) (s : GAState) :
    (gaStep fit rnd g s).pop.length = 2 * ((s.pop.length + 1) / 2) ∧
      (s.pop.length % 2 = 0 →
        (gaStep fit rnd g s).pop.length = s.pop.length) := by
  have h : (gaStep fit rnd g s).pop.length = 2 * ((s.pop.length + 1) / 2) := by
    simp only [gaStep, applyElitism_length, reproduce_length, selection_length]
  refine ⟨h, fun he => ?_⟩
  rw [h]
  omega

/-- Witness for C7 (amended) at an even population of size 2. -/
theorem claim_C7_population_size_amended_witness :
    (gaStep (fun _ => 0) rndW 0 ⟨0, [pW, pW], [], []⟩).pop.length =
        2 * (([pW, pW].length + 1) / 2) ∧
      (gaStep (fun _ => 0) rndW 0 ⟨0, [pW, pW], [], []⟩).pop.length = 2 :=
  ⟨(claim_C7_population_size_amended (fun _ => 0) rndW 0
      ⟨0, [pW, pW], [], []⟩).1,
    (claim_C7_population_size_amended (fun _ => 0) rndW 0
      ⟨0, [pW, pW], [], []⟩).2 (by norm_num)⟩

/-- Counterexample for C7 as stated: a population of 3 individuals hands a
population of 4 (not 3) to the next generation. -/
theorem claim_C7_population_size_counterexample :
    (gaStep (fun _ => 0) rndW 0 ⟨0, [pW, pW, pW], [], []⟩).pop.length = 4 ∧
      (4 : ℕ) ≠ 3 := by
  constructor
  · simp only [gaStep, applyElitism_length, reproduce_length, selection_length,
      List.length_cons, List.length_nil]
  · norm_num

/-- The signals OptimizationThread.run can emit, in emission order. -/
inductive Sig where
  | progress : ℕ → Sig
  | status : Sig
  | finished : Params → ℝ → List (Params × ℝ) → Sig
  | error : Sig

/-- The signals the per-generation progress callback emits for one restart:
steps_done is incremented, a progress signal int((steps_done/total)*100) is
emitted, and a status message follows every tenth of the generations and at
the last generation. -/
def cbSignals (gens total : ℕ) : ℕ → List (ℕ × Params × ℝ) → List Sig
  | _, [] => []
  | steps, cb :: rest =>
    Sig.progress ((steps + 1) * 100 / total) ::
      ((if cb.1 % max 1 (gens / 10) = 0 ∨ cb.1 = gens - 1 then [Sig.status]
        else []) ++ cbSignals gens total (steps + 1) rest)

/-- results[0] after the stable sort by fitness in reverse order: the first
result achieving the maximal fitness. -/
def bestResult : List (Params × List (Params × ℝ) × ℝ) →
    Params × List (Params × ℝ) × ℝ
  | [] => (default, [], 0)
  | r :: rest => rest.foldl (fun b x => if b.2.2 < x.2.2 then x else b) r

/-- The state of the restart loop: stop-flag reads consumed, steps_done,
emitted signals, accumulated results. -/
structure ThreadState where
  reads : ℕ
  steps : ℕ
  sigs : List Sig
  results : List (Params × List (Params × ℝ) × ℝ)

/-- The restart loop of OptimizationThread.run. The stop flag is read once
at each loop top, once per generation inside genetic_algorithm, and once
after each genetic_algorithm call (before appending the result). The
boolean is true when genetic_algorithm returned none — the source then
raises IndexError on best_history[-1], the except clause emits an error
signal, and the run ends. -/
def threadLoop (fit : Params → ℝ) (rnd : ℕ → ℕ → GenRand)
    (initR : ℕ → ℕ → Gene → ℝ) (popsize gens restarts : ℕ)
    (flag : ℕ → Bool) : ℕ → ℕ → ThreadState → ThreadState × Bool
  | _, 0, st => (st, false)
  | r, rem + 1, st =>
    if flag st.reads then
      match genetic_algorithm fit (rnd r) (initR r) popsize gens flag
        (st.reads + 1) with
      | (gaS, none) =>
        ({ reads := gaS.reads, steps := st.steps + gaS.cbs.length,
           sigs := st.sigs ++ cbSignals gens (restarts * gens) st.steps gaS.cbs
             ++ [Sig.error],
           results := st.results }, true)
      | (gaS, some res) =>
        if flag gaS.reads then
          threadLoop fit rnd initR popsize gens restarts flag (r + 1) rem
            { reads := gaS.reads + 1, steps := st.steps + gaS.cbs.length,
              sigs := st.sigs ++ cbSignals gens (restarts * gens) st.steps gaS.cbs,
              results := st.results ++ [(res.1, res.2, fit res.1)] }
        else
          threadLoop fit rnd initR popsize gens restarts flag (r + 1) rem
            { reads := gaS.reads + 1, steps := st.steps + gaS.cbs.length,
              sigs := st.sigs ++ cbSignals gens (restarts * gens) st.steps gaS.cbs,
              results := st.results }
    else (⟨st.reads + 1, st.steps, st.sigs, st.results⟩, false)

/-- OptimizationThread.run: the complete ordered list of emitted signals.
After the restart loop (when no exception escaped), the final conditional
reads the flag once; when it is set and results exist, progress 100 and the
finished payload are emitted; when the flag is clear (read once more by the
elif) nothing is emitted; otherwise an error is emitted. -/
def threadRun (fit : Params → ℝ) (rnd : ℕ → ℕ → GenRand)
    (initR : ℕ → ℕ → Gene → ℝ) (popsize gens restarts : ℕ)
    (flag : ℕ → Bool) : List Sig :=
  let tl := threadLoop fit rnd initR popsize gens restarts flag 0 restarts
    ⟨0, 0, [], []⟩
  if tl.2 then tl.1.sigs
  else if flag tl.1.reads && !tl.1.results.isEmpty then
    tl.1.sigs ++ [Sig.progress 100,
      Sig.finished (bestResult tl.1.results).1 (bestResult tl.1.results).2.2
        (bestResult tl.1.results).2.1]
  else if !flag (tl.1.reads + 1) then tl.1.sigs
  else tl.1.sigs ++ [Sig.error]

/-- C8 (code bug): the stop flag is cleared during the run — it is true at
the restart-loop check of the thread (read 0) and false from the first
generation check of the genetic algorithm (read 1) onwards. genetic_algorithm then
breaks with an empty best_history and the best_history[-1] of the source raises
IndexError, so the except clause emits an error signal: the run emits an
error payload on cancellation, contradicting the claim that cancellation
yields no error signal. -/
theorem claim_C8_cancel_emits_error :
    threadRun (fun _ => 0) (fun _ _ => rndW) (fun _ _ _ => 0) 2 1 1
      (fun i => i == 0) = [Sig.error] := rfl

/-- The per-month dose resolution of plot_projection_with_strategies when
an explicit scenario list is given: scan the scenario list in the order
given and take dose_percent/100 of the first interval whose closed [start,
end] bounds contain the month; a month matched by no interval uses the
reconstructed clinical dose dict when the month is at most the last
clinical month (with the last clinical dose as dict default), and the last
clinical dose beyond that. -/
def resolveScenarioDose (scs : List (ℤ × ℤ × ℚ)) (clin : ℤ → Option ℚ)
    (lastMonth : ℤ) (lastDose : ℚ) (m : ℤ) : ℚ :=
  match scs.find? (fun s => decide (s.1 ≤ m ∧ m ≤ s.2.1)) with
  | some s => s.2.2 / 100
  | none => if m ≤ lastMonth then (clin m).getD lastDose else lastDose

/-- Counterexample for C9 as stated: scenarios [(0,5,50%),(20,30,0%)] with
the clinical range ending at month 3 (final clinical dose 1.0). Month 5 is
assigned dose 0.5; month 6 is matched by no interval and lies beyond the
clinical range, and the code assigns it the final clinical dose 1.0 — not
the most recently assigned dose 0.5. -/
theorem claim_C9_fallback_counterexample :
    resolveScenarioDose [(0, 5, 50), (20, 30, 0)] (fun _ => none) 3 1 5 =
        1 / 2 ∧
      resolveScenarioDose [(0, 5, 50), (20, 30, 0)] (fun _ => none) 3 1 6 = 1 ∧
      (1 : ℚ) ≠ 1 / 2 := by
  refine ⟨by norm_num [resolveScenarioDose, List.find?],
    by norm_num [resolveScenarioDose, List.find?], by norm_num⟩

/-- C9 (amended): the month dose is the dose_percent/100 of the first
matching interval in the given order (inclusive bounds); an unmatched month
within the clinical observation range takes the reconstructed clinical dose
(defaulting to the final clinical dose); an unmatched month beyond the
clinical range takes the dose of the final clinical point (not the most
recently assigned dose of a month); and the schedule [(0,24,100),(25,120,0)]
yields dose 1.0 for months 0..24 and 0.0 for months 25..120. -/
theorem claim_C9_scenario_resolution (scs : List (ℤ × ℤ × ℚ))
    (s0 : ℤ × ℤ × ℚ) (clin : ℤ → Option ℚ) (lastMonth : ℤ) (lastDose : ℚ)
    (m : ℤ) :
    (s0.1 ≤ m ∧ m ≤ s0.2.1 →
      resolveScenarioDose (s0 :: scs) clin lastMonth lastDose m =
        s0.2.2 / 100) ∧
      (scs.find? (fun s => decide (s.1 ≤ m ∧ m ≤ s.2.1)) = none →
        m ≤ lastMonth →
        resolveScenarioDose scs clin lastMonth lastDose m =
          (clin m).getD lastDose) ∧
      (scs.find? (fun s => decide (s.1 ≤ m ∧ m ≤ s.2.1)) = none →
        lastMonth < m →
        resolveScenarioDose scs clin lastMonth lastDose m = lastDose) ∧
      (0 ≤ m → m ≤ 24 →
        resolveScenarioDose [(0, 24, 100), (25, 120, 0)] clin lastMonth
          lastDose m = 1) ∧
      (25 ≤ m → m ≤ 120 →
        resolveScenarioDose [(0, 24, 100), (25, 120, 0)] clin lastMonth
          lastDose m = 0) := by
  refine ⟨fun hm => ?_, fun hn hin => ?_, fun hn hout => ?_,
    fun h0 h24 => ?_, fun h25 h120 => ?_⟩
  · unfold resolveScenarioDose
    rw [List.find?_cons_of_pos _ (by simpa using hm)]
  · unfold resolveScenarioDose
    rw [hn]
    simp only [if_pos hin]
  · unfold resolveScenarioDose
    rw [hn]
    simp only [if_neg (not_le.mpr hout)]
  · unfold resolveScenarioDose
    rw [List.find?_cons_of_pos _ (by simp; omega)]
    norm_num
  · unfold resolveScenarioDose
    rw [List.find?_cons_of_neg _ (by simp; omega),
      List.find?_cons_of_pos _ (by simp; omega)]
    norm_num

/-- Witness for C9 (amended) at concrete months: a matched month, an
unmatched month inside the clinical range, an unmatched month beyond it,
and the two halves of the concrete schedule. -/
theorem claim_C9_scenario_resolution_witness :
    resolveScenarioDose [((0 : ℤ), (5 : ℤ), (50 : ℚ))] (fun _ => some (3 / 4))
        10 1 2 = 50 / 100 ∧
      resolveScenarioDose [] (fun _ => some (3 / 4)) 10 1 2 = 3 / 4 ∧
      resolveScenarioDose [] (fun _ => some (3 / 4)) 10 1 20 = 1 ∧
      resolveScenarioDose [(0, 24, 100), (25, 120, 0)] (fun _ => none) 10 1
        7 = 1 ∧
      resolveScenarioDose [(0, 24, 100), (25, 120, 0)] (fun _ => none) 10 1
        30 = 0 :=
  ⟨(claim_C9_scenario_resolution [] ((0 : ℤ), (5 : ℤ), (50 : ℚ))
      (fun _ => some (3 / 4)) 10 1 2).1 (by norm_num),
    (claim_C9_scenario_resolution [] ((0 : ℤ), (5 : ℤ), (50 : ℚ))
      (fun _ => some (3 / 4)) 10 1 2).2.1 rfl (by norm_num),
    (claim_C9_scenario_resolution [] ((0 : ℤ), (5 : ℤ), (50 : ℚ))
      (fun _ => some (3 / 4)) 10 1 20).2.2.1 rfl (by norm_num),
    (claim_C9_scenario_resolution [] ((0 : ℤ), (5 : ℤ), (50 : ℚ))
      (fun _ => none) 10 1 7).2.2.2.1 (by norm_num) (by norm_num),
    (claim_C9_scenario_resolution [] ((0 : ℤ), (5 : ℤ), (50 : ℚ))
      (fun _ => none) 10 1 30).2.2.2.2 (by norm_num) (by norm_num)⟩

end

end CML
